import Mathlib

/-!
# Verification of the multi-format content renderer (sidepanel/App.tsx)

Shallow embedding of the renderer functions `renderMarkdown`,
`renderInlineMarkdown`, `renderHtml`, `renderJson`, `renderJsonObject`,
`renderPlainText` and `renderResult` from `src/src/sidepanel/App.tsx`.

Strings are modelled as `List Char`.  JavaScript regular expressions used by
the source are compiled, by hand, into explicit search functions; each such
function is annotated with the regex it embeds and the reasoning for the
compilation (all the regexes in the source are deterministic in the sense
that backtracking never changes the overall outcome, which is argued at each
definition).  Recursions that are not structural in the input are driven by
an explicit fuel argument whose initial value strictly exceeds the number of
possible steps, so every definition is a computable `def` that the kernel
can evaluate.
-/

/-- The set of characters matched by JavaScript's `\s` class (and removed by
`String.prototype.trim`): tab, LF, VT, FF, CR, space, NBSP, ZWNBSP and the
Unicode space separators, plus the line and paragraph separators. -/
def isJsWs (c : Char) : Bool :=
  c.val = 0x9 || c.val = 0xA || c.val = 0xB || c.val = 0xC || c.val = 0xD ||
  c.val = 0x20 || c.val = 0xA0 || c.val = 0x1680 ||
  (0x2000 ≤ c.val && c.val ≤ 0x200A) ||
  c.val = 0x2028 || c.val = 0x2029 || c.val = 0x202F || c.val = 0x205F ||
  c.val = 0x3000 || c.val = 0xFEFF

/-- JavaScript `String.prototype.trim`: drop `\s` characters at both ends. -/
def jsTrim (cs : List Char) : List Char :=
  ((cs.dropWhile isJsWs).reverse.dropWhile isJsWs).reverse

/-- Split on a separator character; JavaScript `String.prototype.split(sep)`
semantics: the empty string yields `[[]]`, a trailing separator yields a
trailing empty piece. -/
def splitOnChar (sep : Char) : List Char → List (List Char)
  | [] => [[]]
  | c :: cs =>
    if c = sep then [] :: splitOnChar sep cs
    else
      match splitOnChar sep cs with
      | [] => [[c]]
      | l :: ls => (c :: l) :: ls

/-- `markdown.split('\n')` from the source. -/
def splitLines (cs : List Char) : List (List Char) :=
  splitOnChar (Char.ofNat 10) cs

/-- JavaScript `\d`. -/
def isDigitChar (c : Char) : Bool :=
  Char.ofNat 48 ≤ c && c ≤ Char.ofNat 57

/-- JavaScript `\w` = `[A-Za-z0-9_]`. -/
def isWordChar (c : Char) : Bool :=
  (Char.ofNat 65 ≤ c && c ≤ Char.ofNat 90) ||
  (Char.ofNat 97 ≤ c && c ≤ Char.ofNat 122) ||
  isDigitChar c || c = Char.ofNat 95

/-- `[A-Z]` (ASCII uppercase, exactly what the source regexes use). -/
def isAsciiUpper (c : Char) : Bool :=
  Char.ofNat 65 ≤ c && c ≤ Char.ofNat 90

/-- ASCII lowercasing, the case folding performed by the `/i` regex flag for
ASCII pattern characters (in non-unicode mode a non-ASCII character never
canonicalizes to an ASCII one, so folding only A–Z is faithful). -/
def lcChar (c : Char) : Char :=
  if isAsciiUpper c then Char.ofNat (c.val.toNat + 32) else c

/-! ## Inline span parser (`renderInlineMarkdown`, App.tsx lines 386-433) -/

/-- Inline spans emitted by `renderInlineMarkdown`: plain text, `<strong>`,
`<em>`, `<code>` and `<a>` (label and href). -/
inductive Span where
  | text (s : List Char)
  | bold (s : List Char)
  | italic (s : List Char)
  | code (s : List Char)
  | link (label url : List Char)
  deriving DecidableEq, Repr

/-- Earliest split of `cs` as `mid ++ delim ++ rest` (`mid` may be empty):
the lazy-quantifier search for a closing delimiter. -/
def splitAtDelim (delim : List Char) : List Char → Option (List Char × List Char)
  | [] => if delim = [] then some ([], []) else none
  | c :: cs =>
    if delim.isPrefixOf (c :: cs) then some ([], (c :: cs).drop delim.length)
    else (splitAtDelim delim cs).map (fun p => (c :: p.1, p.2))

/-- Anchored match of `(\*\*|__)(.+?)\2` (the `/s` flag makes `.` match every
character).  The two alternatives start with distinct characters, so the
alternation is deterministic; `(.+?)` is lazy, so the closing delimiter is the
earliest occurrence leaving a nonempty body. -/
def boldAt (cs : List Char) : Option (List Char × List Char) :=
  let tryDelim : List Char → Option (List Char × List Char) := fun delim =>
    if delim.isPrefixOf cs then
      match cs.drop delim.length with
      | [] => none
      | c :: rest => (splitAtDelim delim rest).map (fun p => (c :: p.1, p.2))
    else none
  match tryDelim ("**".data) with
  | some r => some r
  | none => tryDelim ("__".data)

/-- `remaining.match(/^(.*?)(\*\*|__)(.+?)\2(.*)$/s)`: the lazy leading group
means the match starts at the earliest position where `boldAt` succeeds.
Returns (text before the match, bold body, text after the match). -/
def findBold : List Char → Option (List Char × List Char × List Char)
  | [] => none
  | c :: cs =>
    match boldAt (c :: cs) with
    | some (mid, rest) => some ([], mid, rest)
    | none => (findBold cs).map (fun p => (c :: p.1, p.2.1, p.2.2))

/-- Anchored match of `(\*|_)([^*_]+)\2`: the body class excludes both
delimiter characters, so the greedy `+` runs to the first `*`/`_`, which must
then equal the opening delimiter (shrinking the body only puts a non-delimiter
character where `\2` is required, so no backtracking case remains). -/
def italicAt : List Char → Option (List Char × List Char)
  | [] => none
  | c :: cs =>
    if c = '*' || c = '_' then
      let body := cs.takeWhile (fun x => !(x = '*' || x = '_'))
      match cs.drop body.length with
      | d :: rest => if body ≠ [] && d = c then some (body, rest) else none
      | [] => none
    else none

/-- `remaining.match(/^(.*?)(\*|_)([^*_]+)\2(.*)$/s)`. -/
def findItalic : List Char → Option (List Char × List Char × List Char)
  | [] => none
  | c :: cs =>
    match italicAt (c :: cs) with
    | some (mid, rest) => some ([], mid, rest)
    | none => (findItalic cs).map (fun p => (c :: p.1, p.2.1, p.2.2))

/-- Anchored match of `` `([^`]+)` `` (same determinism argument as italic). -/
def codeAt : List Char → Option (List Char × List Char)
  | [] => none
  | c :: cs =>
    if c = Char.ofNat 96 then
      let body := cs.takeWhile (fun x => x ≠ Char.ofNat 96)
      match cs.drop body.length with
      | _ :: rest => if body ≠ [] then some (body, rest) else none
      | [] => none
    else none

/-- `remaining.match(/^(.*?)`([^`]+)`(.*)$/s)`. -/
def findCode : List Char → Option (List Char × List Char × List Char)
  | [] => none
  | c :: cs =>
    match codeAt (c :: cs) with
    | some (mid, rest) => some ([], mid, rest)
    | none => (findCode cs).map (fun p => (c :: p.1, p.2.1, p.2.2))

/-- Anchored match of `\[([^\]]+)\]\(([^)]+)\)`: label runs to the first `]`,
url to the first `)`; each negated class makes the greedy `+` deterministic. -/
def linkAt : List Char → Option (List Char × List Char × List Char)
  | [] => none
  | c :: cs =>
    if c = '[' then
      let label := cs.takeWhile (fun x => x ≠ ']')
      match cs.drop label.length with
      | _ :: rest =>
        if label ≠ [] then
          match rest with
          | '(' :: rest2 =>
            let url := rest2.takeWhile (fun x => x ≠ ')')
            match rest2.drop url.length with
            | _ :: rest3 => if url ≠ [] then some (label, url, rest3) else none
            | [] => none
          | _ => none
        else none
      | [] => none
    else none

/-- `remaining.match(/^(.*?)\[([^\]]+)\]\(([^)]+)\)(.*)$/s)`.  Returns
(text before, label, url, text after). -/
def findLink : List Char → Option (List Char × List Char × List Char × List Char)
  | [] => none
  | c :: cs =>
    match linkAt (c :: cs) with
    | some (label, url, rest) => some ([], label, url, rest)
    | none => (findLink cs).map (fun p => (c :: p.1, p.2.1, p.2.2.1, p.2.2.2))

/-- `if (match[1]) parts.push(<span>…)`: a nonempty leading group becomes a
literal text span, an empty one is skipped. -/
def preText (pre : List Char) : List Span :=
  if pre = [] then [] else [Span.text pre]

/-- The loop body of `renderInlineMarkdown`, driven by fuel.  Each successful
pattern strictly shortens the remaining text, so fuel `length + 1` is never
exhausted; on exhaustion the remainder is emitted as literal text, matching
the loop's own fallback. -/
def parseSpansF : Nat → List Char → List Span
  | _, [] => []
  | 0, rem => [Span.text rem]
  | fuel + 1, rem =>
    match findBold rem with
    | some (pre, mid, rest) => preText pre ++ [Span.bold mid] ++ parseSpansF fuel rest
    | none =>
      match findItalic rem with
      | some (pre, mid, rest) => preText pre ++ [Span.italic mid] ++ parseSpansF fuel rest
      | none =>
        match findCode rem with
        | some (pre, mid, rest) => preText pre ++ [Span.code mid] ++ parseSpansF fuel rest
        | none =>
          match findLink rem with
          | some (pre, label, url, rest) =>
            preText pre ++ [Span.link label url] ++ parseSpansF fuel rest
          | none => [Span.text rem]

/-- `renderInlineMarkdown` (App.tsx lines 386-433) as a span sequence; the
source's final single-element/fragment wrapping is presentation only. -/
def parseSpans (cs : List Char) : List Span :=
  parseSpansF (cs.length + 1) cs

/-! ## Block-level Markdown parser (`renderMarkdown`, App.tsx lines 320-535) -/

/-- The block nodes `renderMarkdown` pushes onto `elements` (CSS classes and
React keys abstracted away). -/
inductive RenderNode where
  | heading (level : Nat) (spans : List Span)
  | paragraph (spans : List Span)
  | list (ordered : Bool) (items : List (List Span))
  | codeBlock (language : List Char) (lines : List (List Char))
  | blockquote (lines : List (List Span))
  | hrule
  | tagList (tags : List (List Char))
  deriving DecidableEq, Repr

/-- The mutable accumulators of `renderMarkdown` (lines 323-329). -/
structure MdState where
  elements : List RenderNode
  listItems : List (List Char)
  orderedListItems : List (List Char)
  codeBlock : List (List Char)
  inCodeBlock : Bool
  codeLanguage : List Char
  blockquoteLines : List (List Char)
  deriving DecidableEq, Repr

/-- Initial state of the accumulators. -/
def mdInit : MdState :=
  ⟨[], [], [], [], false, [], []⟩

/-- `flushList` (lines 331-340): emit a `<ul>` when the buffer is nonempty,
rendering each buffered item's inline spans. -/
def flushList (s : MdState) : MdState :=
  if s.listItems = [] then s
  else { s with
    elements := s.elements ++ [RenderNode.list false (s.listItems.map parseSpans)]
    listItems := [] }

/-- `flushOrderedList` (lines 342-351). -/
def flushOrderedList (s : MdState) : MdState :=
  if s.orderedListItems = [] then s
  else { s with
    elements := s.elements ++ [RenderNode.list true (s.orderedListItems.map parseSpans)]
    orderedListItems := [] }

/-- `flushCodeBlock` (lines 353-370): note the flush (and the language reset)
happens only when the line buffer is nonempty. -/
def flushCodeBlock (s : MdState) : MdState :=
  if s.codeBlock = [] then s
  else { s with
    elements := s.elements ++ [RenderNode.codeBlock s.codeLanguage s.codeBlock]
    codeBlock := []
    codeLanguage := [] }

/-- `flushBlockquote` (lines 372-383). -/
def flushBlockquote (s : MdState) : MdState :=
  if s.blockquoteLines = [] then s
  else { s with
    elements := s.elements ++ [RenderNode.blockquote (s.blockquoteLines.map parseSpans)]
    blockquoteLines := [] }

/-- Test of `/^\d+\.\s/` (line 502): a nonempty digit run, a dot, one `\s`
character.  The greedy `\d+` is deterministic: shrinking the digit run puts a
digit where `\.` is required. -/
def ordTest (cs : List Char) : Bool :=
  let digits := cs.takeWhile isDigitChar
  match cs.drop digits.length with
  | d :: w :: _ => digits ≠ [] && d = '.' && isJsWs w
  | _ => false

/-- `trimmed.replace(/^\d+\.\s/, '')` (line 504), applied when `ordTest`
holds: drop the digits, the dot and exactly one whitespace character. -/
def ordStrip (cs : List Char) : List Char :=
  cs.drop ((cs.takeWhile isDigitChar).length + 2)

/-- `trimmed.slice(5).split(',').map(t => t.trim()).filter(Boolean)`
(line 510). -/
def tagsOf (cs : List Char) : List (List Char) :=
  ((splitOnChar ',' (cs.drop 5)).map jsTrim).filter (fun t => t ≠ [])

/-- Append one node to `elements`. -/
def pushNode (s : MdState) (n : RenderNode) : MdState :=
  { s with elements := s.elements ++ [n] }

/-- The header/rule/list/tags/paragraph chain of the `forEach` body
(App.tsx lines 464-527): the branch taken by a non-fence, non-quote line
outside a code block, starting with the `else { flushBlockquote(); }` of
line 464. -/
def mdContent (s0 : MdState) (trimmed : List Char) : MdState :=
    let s := flushBlockquote s0
    if "# ".data.isPrefixOf trimmed then
      pushNode (flushOrderedList (flushList s)) (RenderNode.heading 1 (parseSpans (trimmed.drop 2)))
    else if "## ".data.isPrefixOf trimmed then
      pushNode (flushOrderedList (flushList s)) (RenderNode.heading 2 (parseSpans (trimmed.drop 3)))
    else if "### ".data.isPrefixOf trimmed then
      pushNode (flushOrderedList (flushList s)) (RenderNode.heading 3 (parseSpans (trimmed.drop 4)))
    else if "#### ".data.isPrefixOf trimmed then
      pushNode (flushOrderedList (flushList s)) (RenderNode.heading 4 (parseSpans (trimmed.drop 5)))
    else if "##### ".data.isPrefixOf trimmed then
      pushNode (flushOrderedList (flushList s)) (RenderNode.heading 5 (parseSpans (trimmed.drop 6)))
    else if trimmed = "---".data || trimmed = "***".data || trimmed = "___".data then
      pushNode (flushOrderedList (flushList s)) RenderNode.hrule
    else if "- ".data.isPrefixOf trimmed || "* ".data.isPrefixOf trimmed then
      let s := flushOrderedList s
      { s with listItems := s.listItems ++ [trimmed.drop 2] }
    else if ordTest trimmed then
      let s := flushList s
      { s with orderedListItems := s.orderedListItems ++ [ordStrip trimmed] }
    else if "Tags:".data.isPrefixOf trimmed then
      pushNode (flushOrderedList (flushList s)) (RenderNode.tagList (tagsOf trimmed))
    else if trimmed ≠ [] then
      pushNode (flushOrderedList (flushList s)) (RenderNode.paragraph (parseSpans trimmed))
    else
      s

/-- One iteration of the `lines.forEach` body (App.tsx lines 435-528),
transcribed branch by branch; `line` is the raw line, `trimmed` its trim. -/
def mdStep (s : MdState) (line : List Char) : MdState :=
  let trimmed := jsTrim line
  if "```".data.isPrefixOf trimmed then
    if s.inCodeBlock then
      flushCodeBlock { s with inCodeBlock := false }
    else
      { (flushBlockquote (flushOrderedList (flushList s))) with
        inCodeBlock := true
        codeLanguage := jsTrim (trimmed.drop 3) }
  else if s.inCodeBlock then
    { s with codeBlock := s.codeBlock ++ [line] }
  else if "> ".data.isPrefixOf trimmed then
    let s := flushOrderedList (flushList s)
    { s with blockquoteLines := s.blockquoteLines ++ [trimmed.drop 2] }
  else
    mdContent s trimmed

/-- The state after the `forEach` loop. -/
def mdFold (cs : List Char) : MdState :=
  (splitLines cs).foldl mdStep mdInit

/-- The trailing flushes (lines 530-533), in source order. -/
def mdFinalize (s : MdState) : MdState :=
  flushCodeBlock (flushBlockquote (flushOrderedList (flushList s)))

/-- `renderMarkdown` (App.tsx lines 320-535) as the emitted node sequence. -/
def mdRender (cs : List Char) : List RenderNode :=
  (mdFinalize (mdFold cs)).elements

/-! ## HTML sanitizer (`renderHtml`, App.tsx lines 538-551) -/

/-- Case-insensitive (ASCII-folding) prefix test, for the `/i` regex flag. -/
def lcIsPref (pat : List Char) (cs : List Char) : Bool :=
  (pat.map lcChar).isPrefixOf (cs.map lcChar)

/-- Distance to the end of the earliest case-insensitive occurrence of
`</script>`: the tail `[^<]*(?:(?!<\/script>)<[^<]*)*<\/script>` of the script
regex consumes everything up to the first `</script>` (the negated classes and
the negative lookahead leave no live backtracking alternative), visiting every
`<` on the way, so it is the plain leftmost-occurrence search. -/
def findScriptClose : List Char → Option Nat
  | [] => none
  | c :: cs =>
    if lcIsPref "</script>".data (c :: cs) then some 9
    else (findScriptClose cs).map Nat.succ

/-- Anchored match of `/<script\b[^<]*(?:(?!<\/script>)<[^<]*)*<\/script>/i`,
returning the number of characters matched. -/
def matchScript (cs : List Char) : Option Nat :=
  if lcIsPref "<script".data cs then
    match cs.drop 7 with
    | [] => none
    | c :: _ =>
      if isWordChar c then none
      else (findScriptClose (cs.drop 7)).map (· + 7)
  else none

/-- Anchored match of `/on\w+=q[^q]*q/i` for a quote character `q`, returning
the number of characters matched.  `\w+` is greedy and the following `=` is
not a word character, so the match is deterministic. -/
def matchHandler (q : Char) (cs : List Char) : Option Nat :=
  match cs with
  | c0 :: c1 :: rest =>
    if lcChar c0 = 'o' && lcChar c1 = 'n' then
      let w := rest.takeWhile isWordChar
      match rest.drop w.length with
      | d :: e :: rest2 =>
        if w ≠ [] && d = '=' && e = q then
          let body := rest2.takeWhile (fun x => x ≠ q)
          match rest2.drop body.length with
          | _ :: _ => some (2 + w.length + 2 + body.length + 1)
          | [] => none
        else none
      | _ => none
    else none
  | _ => none

/-- One global-`replace`-with-`''` pass: scan left to right, deleting each
match and resuming after it (matched spans are never rescanned), skipping one
character on failure.  Every pattern here matches at least one character, so
fuel `length + 1` bounds the number of steps. -/
def scanRemove (m : List Char → Option Nat) : Nat → List Char → List Char
  | 0, cs => cs
  | _, [] => []
  | fuel + 1, c :: cs =>
    match m (c :: cs) with
    | some n => scanRemove m fuel ((c :: cs).drop n)
    | none => c :: scanRemove m fuel cs

/-- The three sequential `replace` passes of `renderHtml` (lines 540-543):
script spans, then double-quoted handlers, then single-quoted handlers. -/
def sanitize (cs : List Char) : List Char :=
  let p1 := scanRemove matchScript (cs.length + 1) cs
  let p2 := scanRemove (matchHandler (Char.ofNat 34)) (p1.length + 1) p1
  scanRemove (matchHandler (Char.ofNat 39)) (p2.length + 1) p2

/-- Does `m` match anywhere in `cs`? -/
def hasMatch (m : List Char → Option Nat) : List Char → Bool
  | [] => (m []).isSome
  | c :: cs => (m (c :: cs)).isSome || hasMatch m cs

/-! ## Plain-text classifier (`renderPlainText`, App.tsx lines 643-664) -/

/-- The four per-line node styles of the plain-text renderer. -/
inductive PlainNode where
  | heading (raw : List Char)
  | listLike (raw : List Char)
  | spacer
  | textLine (raw : List Char)
  deriving DecidableEq, Repr

/-- `/^[A-Z][A-Z\s&]+$/.test(t)`: an ASCII uppercase letter followed by a
nonempty run of uppercase letters, `\s` characters and `&`. -/
def capsTest (cs : List Char) : Bool :=
  match cs with
  | [] => false
  | c :: rest =>
    isAsciiUpper c && rest ≠ [] &&
      rest.all (fun x => isAsciiUpper x || isJsWs x || x = '&')

/-- The body of the `lines.map` in `renderPlainText` (lines 647-661). -/
def plainLine (line : List Char) : PlainNode :=
  if capsTest (jsTrim line) && (jsTrim line).length > 3 then
    PlainNode.heading line
  else if "-".data.isPrefixOf (jsTrim line) then
    PlainNode.listLike line
  else if jsTrim line = [] then
    PlainNode.spacer
  else
    PlainNode.textLine line

/-- `renderPlainText` (lines 643-664): one node per line. -/
def plainRender (cs : List Char) : List PlainNode :=
  (splitLines cs).map plainLine

/-- The claim's classification rule, stated in its own words: heading when the
trimmed line starts with an uppercase letter, contains only uppercase
letters/whitespace/`&` and is longer than 3; list-like when the trimmed line
starts with `-`; spacer when blank; plain text otherwise.  Named separately so
the source-derived `plainLine` can be proved to refine it. -/
def plainLineSpec (line : List Char) : PlainNode :=
  let t := jsTrim line
  if t ≠ [] && (t.all (fun x => isAsciiUpper x || isJsWs x || x = '&')) &&
      (match t with | c :: _ => isAsciiUpper c | [] => false) && t.length > 3 then
    PlainNode.heading line
  else if "-".data.isPrefixOf t then
    PlainNode.listLike line
  else if t = [] then
    PlainNode.spacer
  else
    PlainNode.textLine line

/-! ## JSON renderer (`renderJson`/`renderJsonObject`, App.tsx lines 554-640)

`JSON.parse` is modelled by a strict JSON parser.  Two deliberate
abstractions, neither observable by the claims: number lexemes are kept
verbatim instead of being converted to IEEE doubles, and a `\uXXXX` escape
denoting a lone UTF-16 surrogate (not representable in `Char`) is mapped
through `Char.ofNat`'s fallback.  A parsed object is stored directly in
JavaScript `Object.entries` order: the textual pairs are first folded into a
JS object (a duplicate key keeps its first position and takes its last
value), then array-index keys — canonical digit strings with numeric value
below 2^32 - 1 — are listed first in ascending numeric order, followed by the
remaining keys in insertion order, which is the ECMAScript own-property-key
order that `Object.entries` exposes. -/

/-- JSON values as produced by `JSON.parse` (object entries already in
`Object.entries` order, see above). -/
inductive JsonValue where
  | null
  | bool (b : Bool)
  | num (lexeme : List Char)
  | str (s : List Char)
  | arr (items : List JsonValue)
  | obj (entries : List (List Char × JsonValue))

/-- Numeric value of a digit string. -/
def digitsToNat (cs : List Char) : Nat :=
  cs.foldl (fun acc c => 10 * acc + (c.val.toNat - 48)) 0

/-- ECMAScript array-index property key: a canonical digit string whose value
is below 2^32 - 1. -/
def isArrayIndex (k : List Char) : Bool :=
  k ≠ [] && k.all isDigitChar && (k = "0".data || k.head? ≠ some '0') &&
    digitsToNat k < 4294967295

/-- Property assignment on a JS object seen as an ordered association list:
an existing key keeps its position and gets the new value, a new key is
appended. -/
def jsInsert (acc : List (List Char × JsonValue)) (kv : List Char × JsonValue) :
    List (List Char × JsonValue) :=
  if acc.any (fun p => p.1 = kv.1) then
    acc.map (fun p => if p.1 = kv.1 then (p.1, kv.2) else p)
  else acc ++ [kv]

/-- Build the JS object from the textual member list. -/
def jsInsertAll (raw : List (List Char × JsonValue)) : List (List Char × JsonValue) :=
  raw.foldl jsInsert []

/-- Insert into a list sorted by ascending array-index value. -/
def insertByIdx (kv : List Char × JsonValue) :
    List (List Char × JsonValue) → List (List Char × JsonValue)
  | [] => [kv]
  | p :: ps =>
    if digitsToNat kv.1 ≤ digitsToNat p.1 then kv :: p :: ps
    else p :: insertByIdx kv ps

/-- Insertion sort by ascending array-index value. -/
def sortByIdx : List (List Char × JsonValue) → List (List Char × JsonValue)
  | [] => []
  | p :: ps => insertByIdx p (sortByIdx ps)

/-- `Object.entries` order: array-index keys ascending, then the rest in
insertion order. -/
def jsEntries (l : List (List Char × JsonValue)) : List (List Char × JsonValue) :=
  sortByIdx (l.filter (fun p => isArrayIndex p.1)) ++
    l.filter (fun p => !isArrayIndex p.1)

/-- JSON's own whitespace (strictly smaller than JavaScript's `\s`). -/
def isJsonWs (c : Char) : Bool :=
  c.val = 0x20 || c.val = 0x9 || c.val = 0xA || c.val = 0xD

/-- Hex digit value. -/
def hexVal (c : Char) : Option Nat :=
  if isDigitChar c then some (c.val.toNat - 48)
  else if Char.ofNat 97 ≤ c && c ≤ Char.ofNat 102 then some (c.val.toNat - 87)
  else if Char.ofNat 65 ≤ c && c ≤ Char.ofNat 70 then some (c.val.toNat - 55)
  else none

/-- The JSON string body parser, entered after the opening quote; returns the
decoded body and the text after the closing quote. -/
def jsonStr : List Char → Option (List Char × List Char)
  | [] => none
  | c :: cs =>
    if c = Char.ofNat 34 then some ([], cs)
    else if c = Char.ofNat 92 then
      match cs with
      | [] => none
      | e :: cs2 =>
        if e = Char.ofNat 34 || e = Char.ofNat 92 || e = '/' then
          (jsonStr cs2).map (fun p => (e :: p.1, p.2))
        else if e = 'b' then (jsonStr cs2).map (fun p => (Char.ofNat 8 :: p.1, p.2))
        else if e = 'f' then (jsonStr cs2).map (fun p => (Char.ofNat 12 :: p.1, p.2))
        else if e = 'n' then (jsonStr cs2).map (fun p => (Char.ofNat 10 :: p.1, p.2))
        else if e = 'r' then (jsonStr cs2).map (fun p => (Char.ofNat 13 :: p.1, p.2))
        else if e = 't' then (jsonStr cs2).map (fun p => (Char.ofNat 9 :: p.1, p.2))
        else if e = 'u' then
          match cs2 with
          | h1 :: h2 :: h3 :: h4 :: cs3 =>
            match hexVal h1, hexVal h2, hexVal h3, hexVal h4 with
            | some a, some b, some c1, some d =>
              (jsonStr cs3).map (fun p =>
                (Char.ofNat (((a * 16 + b) * 16 + c1) * 16 + d) :: p.1, p.2))
            | _, _, _, _ => none
          | _ => none
        else none
    else if c.val < 0x20 then none
    else (jsonStr cs).map (fun p => (c :: p.1, p.2))

/-- JSON number lexeme: `-?(0|[1-9][0-9]*)(\.[0-9]+)?([eE][+-]?[0-9]+)?`.
Returns the lexeme and the rest. -/
def jsonNum (cs : List Char) : Option (List Char × List Char) :=
  let signed : List Char × List Char :=
    match cs with
    | c :: rest => if c = '-' then (['-'], rest) else ([], cs)
    | [] => ([], [])
  let intPart : Option (List Char × List Char) :=
    match signed.2 with
    | [] => none
    | c :: rest =>
      if c = '0' then some (signed.1 ++ ['0'], rest)
      else if isDigitChar c then
        let ds := rest.takeWhile isDigitChar
        some (signed.1 ++ c :: ds, rest.drop ds.length)
      else none
  let withFrac : Option (List Char × List Char) :=
    intPart.bind (fun p =>
      match p.2 with
      | d :: r =>
        if d = '.' then
          let ds := r.takeWhile isDigitChar
          if ds = [] then none else some (p.1 ++ '.' :: ds, r.drop ds.length)
        else some p
      | [] => some p)
  withFrac.bind (fun p =>
    match p.2 with
    | d :: r =>
      if d = 'e' || d = 'E' then
        let signedE : List Char × List Char :=
          match r with
          | c2 :: r2 => if c2 = '+' || c2 = '-' then ([c2], r2) else ([], r)
          | [] => ([], [])
        let ds := signedE.2.takeWhile isDigitChar
        if ds = [] then none
        else some (p.1 ++ d :: signedE.1 ++ ds, signedE.2.drop ds.length)
      else some p
    | [] => some p)

mutual

/-- Recursive-descent JSON value parser, driven by fuel; every recursive call
strictly decreases the fuel and is preceded by consuming at least one input
character, so fuel `2 * length + 2` is never exhausted on inputs it is called
with. -/
def jsonVal : Nat → List Char → Option (JsonValue × List Char)
  | 0, _ => none
  | fuel + 1, cs =>
    match cs.dropWhile isJsonWs with
    | [] => none
    | c :: rest =>
      if c = Char.ofNat 34 then (jsonStr rest).map (fun p => (JsonValue.str p.1, p.2))
      else if c = 'n' then
        if "ull".data.isPrefixOf rest then some (JsonValue.null, rest.drop 3) else none
      else if c = 't' then
        if "rue".data.isPrefixOf rest then some (JsonValue.bool true, rest.drop 3) else none
      else if c = 'f' then
        if "alse".data.isPrefixOf rest then some (JsonValue.bool false, rest.drop 4) else none
      else if c = '[' then
        match rest.dropWhile isJsonWs with
        | ']' :: r => some (JsonValue.arr [], r)
        | _ => (jsonElems fuel rest).map (fun p => (JsonValue.arr p.1, p.2))
      else if c = Char.ofNat 123 then
        match rest.dropWhile isJsonWs with
        | d :: r => if d = Char.ofNat 125 then some (JsonValue.obj [], r)
                    else (jsonMembers fuel rest).map
                      (fun p => (JsonValue.obj (jsEntries (jsInsertAll p.1)), p.2))
        | [] => none
      else if c = '-' || isDigitChar c then
        (jsonNum (c :: rest)).map (fun p => (JsonValue.num p.1, p.2))
      else none

/-- One or more comma-separated array elements followed by `]`. -/
def jsonElems : Nat → List Char → Option (List JsonValue × List Char)
  | 0, _ => none
  | fuel + 1, cs =>
    match jsonVal fuel cs with
    | none => none
    | some (v, rest) =>
      match rest.dropWhile isJsonWs with
      | ',' :: r => (jsonElems fuel r).map (fun p => (v :: p.1, p.2))
      | ']' :: r => some ([v], r)
      | _ => none

/-- One or more comma-separated `"key": value` members followed by `}`;
returns the members in textual order. -/
def jsonMembers : Nat → List Char → Option (List (List Char × JsonValue) × List Char)
  | 0, _ => none
  | fuel + 1, cs =>
    match cs.dropWhile isJsonWs with
    | c :: rest =>
      if c = Char.ofNat 34 then
        match jsonStr rest with
        | none => none
        | some (k, rest2) =>
          match rest2.dropWhile isJsonWs with
          | ':' :: rest3 =>
            match jsonVal fuel rest3 with
            | none => none
            | some (v, rest4) =>
              match rest4.dropWhile isJsonWs with
              | ',' :: r => (jsonMembers fuel r).map (fun p => ((k, v) :: p.1, p.2))
              | d :: r => if d = Char.ofNat 125 then some ([(k, v)], r) else none
              | [] => none
          | _ => none
      else none
    | [] => none

end

/-- `JSON.parse`: a complete value with only whitespace around it. -/
def jsonParse (cs : List Char) : Option JsonValue :=
  match jsonVal (2 * cs.length + 2) cs with
  | some (v, rest) => if rest.dropWhile isJsonWs = [] then some v else none
  | none => none

/-- Anchored match of the fence pattern at the current position: `` ``` ``,
optionally the literal `json`, a maximal `\s*` run, then the capture up to the
earliest closing `` ``` ``.  The optional `json` and the whitespace run contain
no backtick, so declining the `(?:json)?` alternative or shrinking `\s*` can
never reveal a closing fence the greedy reading missed — the procedure is
deterministic. -/
def fenceAt (cs : List Char) : Option (List Char) :=
  if "```".data.isPrefixOf cs then
    let r1 := cs.drop 3
    let r2 := if "json".data.isPrefixOf r1 then r1.drop 4 else r1
    let r3 := r2.dropWhile isJsWs
    (splitAtDelim "```".data r3).map (fun p => p.1)
  else none

/-- `jsonStr.match(/```(?:json)?\s*([\s\S]*?)```/)` (App.tsx line 557): the
leftmost position where the fence pattern matches; its capture group.  (If the
anchored match fails at the leftmost opening `` ``` ``, it fails everywhere:
a later successful opening would need a closing occurrence the earlier search
already looked for.) -/
def fenceExtract : List Char → Option (List Char)
  | [] => none
  | c :: cs =>
    match fenceAt (c :: cs) with
    | some content => some content
    | none => fenceExtract cs

/-- `cleanJson` (line 558): the fenced capture if the pattern matched, else
the whole input, trimmed either way. -/
def candidateJson (cs : List Char) : List Char :=
  match fenceExtract cs with
  | some m => jsTrim m
  | none => jsTrim cs

/-- Display tree produced by `renderJsonObject` (styling abstracted): inline
vs. per-line arrays, empty-collection literals, and object entry lists where
the `Bool` records whether the value was wrapped in a nested block (`<div
className="mt-1">`). -/
inductive JTree where
  | jnull
  | jbool (b : Bool)
  | jnum (lexeme : List Char)
  | jstr (s : List Char)
  | emptyArr
  | emptyObj
  | inlineArr (items : List JTree)
  | blockArr (items : List JTree)
  | objBlock (entries : List (List Char × Bool × JTree))

/-- `typeof item !== 'object' || item === null` (line 588): a "simple" array
element. -/
def isSimpleItem : JsonValue → Bool
  | JsonValue.null => true
  | JsonValue.bool _ => true
  | JsonValue.num _ => true
  | JsonValue.str _ => true
  | _ => false

/-- `typeof v === 'object'` for a parsed JSON value (true for null, arrays
and objects). -/
def jsTypeofObject : JsonValue → Bool
  | JsonValue.null => true
  | JsonValue.arr _ => true
  | JsonValue.obj _ => true
  | _ => false

/-- The nested-block condition of lines 627-630: a plain object, or a
nonempty array whose first element has `typeof === 'object'`. -/
def entryWrap : JsonValue → Bool
  | JsonValue.obj _ => true
  | JsonValue.arr (x :: _) => jsTypeofObject x
  | _ => false

/-- `renderJsonObject` (App.tsx lines 567-640), fuel-driven (the fuel strictly
exceeds the value's depth at every call site; `undefined` cannot occur in a
`JSON.parse` result, so its branch is dead).  The `depth` argument only ever
selects CSS classes in the source and is threaded but unused. -/
def renderJsonValueF : Nat → JsonValue → Nat → JTree
  | 0, _, _ => JTree.jnull
  | fuel + 1, v, depth =>
    match v with
    | JsonValue.null => JTree.jnull
    | JsonValue.bool b => JTree.jbool b
    | JsonValue.num s => JTree.jnum s
    | JsonValue.str s => JTree.jstr s
    | JsonValue.arr items =>
      match items with
      | [] => JTree.emptyArr
      | _ =>
        if items.all isSimpleItem && items.length ≤ 5 then
          JTree.inlineArr (items.map (fun x => renderJsonValueF fuel x (depth + 1)))
        else
          JTree.blockArr (items.map (fun x => renderJsonValueF fuel x (depth + 1)))
    | JsonValue.obj entries =>
      match entries with
      | [] => JTree.emptyObj
      | _ =>
        JTree.objBlock (entries.map
          (fun p => (p.1, entryWrap p.2, renderJsonValueF fuel p.2 (depth + 1))))

/-- Result of `renderJson`: a rendered tree, or the verbatim `<pre>` fallback
holding the original input. -/
inductive JsonRendered where
  | tree (t : JTree)
  | fallback (raw : List Char)

/-- `renderJson` (App.tsx lines 554-565). -/
def renderJson (cs : List Char) : JsonRendered :=
  let cand := candidateJson cs
  match jsonParse cand with
  | some v => JsonRendered.tree (renderJsonValueF (cand.length + 1) v 0)
  | none => JsonRendered.fallback cs

/-- Did `renderJson` take the verbatim-text fallback branch? -/
def JsonRendered.isFallback : JsonRendered → Bool
  | JsonRendered.fallback _ => true
  | _ => false

/-- Key order of a rendered top-level object (empty for any other shape). -/
def JsonRendered.topKeys : JsonRendered → List (List Char)
  | JsonRendered.tree (JTree.objBlock entries) => entries.map (fun e => e.1)
  | _ => []

/-! ## Format dispatcher (`renderResult`, App.tsx lines 667-679) -/

/-- The four renderers' outputs, tagged by path. -/
inductive RenderedDoc where
  | mdDoc (nodes : List RenderNode)
  | htmlDoc (sanitized : List Char)
  | jsonDoc (r : JsonRendered)
  | plainDoc (lines : List PlainNode)

/-- `renderHtml` (lines 538-551): the sanitized text handed to
`dangerouslySetInnerHTML`. -/
def renderHtml (cs : List Char) : List Char :=
  sanitize cs

/-- `renderResult` (lines 667-679): a JavaScript `switch` on the format
string; `'markdown'` and `default` share the Markdown branch. -/
def renderResult (content : List Char) (format : String) : RenderedDoc :=
  if format = "html" then RenderedDoc.htmlDoc (renderHtml content)
  else if format = "json" then RenderedDoc.jsonDoc (renderJson content)
  else if format = "plain" then RenderedDoc.plainDoc (plainRender content)
  else RenderedDoc.mdDoc (mdRender content)

/-! ## Helper lemmas -/

@[simp] theorem flushList_listItems (s : MdState) : (flushList s).listItems = [] := by
  unfold flushList; split <;> simp_all

@[simp] theorem flushList_ordered (s : MdState) :
    (flushList s).orderedListItems = s.orderedListItems := by
  unfold flushList; split <;> rfl

@[simp] theorem flushList_code (s : MdState) : (flushList s).codeBlock = s.codeBlock := by
  unfold flushList; split <;> rfl

@[simp] theorem flushList_inCode (s : MdState) : (flushList s).inCodeBlock = s.inCodeBlock := by
  unfold flushList; split <;> rfl

@[simp] theorem flushList_lang (s : MdState) : (flushList s).codeLanguage = s.codeLanguage := by
  unfold flushList; split <;> rfl

@[simp] theorem flushList_bq (s : MdState) :
    (flushList s).blockquoteLines = s.blockquoteLines := by
  unfold flushList; split <;> rfl

theorem flushList_of_nil (s : MdState) (h : s.listItems = []) : flushList s = s := by
  unfold flushList; simp [h]

@[simp] theorem flushOrderedList_ordered (s : MdState) :
    (flushOrderedList s).orderedListItems = [] := by
  unfold flushOrderedList; split <;> simp_all

@[simp] theorem flushOrderedList_listItems (s : MdState) :
    (flushOrderedList s).listItems = s.listItems := by
  unfold flushOrderedList; split <;> rfl

@[simp] theorem flushOrderedList_code (s : MdState) :
    (flushOrderedList s).codeBlock = s.codeBlock := by
  unfold flushOrderedList; split <;> rfl

@[simp] theorem flushOrderedList_inCode (s : MdState) :
    (flushOrderedList s).inCodeBlock = s.inCodeBlock := by
  unfold flushOrderedList; split <;> rfl

@[simp] theorem flushOrderedList_lang (s : MdState) :
    (flushOrderedList s).codeLanguage = s.codeLanguage := by
  unfold flushOrderedList; split <;> rfl

@[simp] theorem flushOrderedList_bq (s : MdState) :
    (flushOrderedList s).blockquoteLines = s.blockquoteLines := by
  unfold flushOrderedList; split <;> rfl

theorem flushOrderedList_of_nil (s : MdState) (h : s.orderedListItems = []) :
    flushOrderedList s = s := by
  unfold flushOrderedList; simp [h]

@[simp] theorem flushBlockquote_bq (s : MdState) :
    (flushBlockquote s).blockquoteLines = [] := by
  unfold flushBlockquote; split <;> simp_all

@[simp] theorem flushBlockquote_listItems (s : MdState) :
    (flushBlockquote s).listItems = s.listItems := by
  unfold flushBlockquote; split <;> rfl

@[simp] theorem flushBlockquote_ordered (s : MdState) :
    (flushBlockquote s).orderedListItems = s.orderedListItems := by
  unfold flushBlockquote; split <;> rfl

@[simp] theorem flushBlockquote_code (s : MdState) :
    (flushBlockquote s).codeBlock = s.codeBlock := by
  unfold flushBlockquote; split <;> rfl

@[simp] theorem flushBlockquote_inCode (s : MdState) :
    (flushBlockquote s).inCodeBlock = s.inCodeBlock := by
  unfold flushBlockquote; split <;> rfl

@[simp] theorem flushBlockquote_lang (s : MdState) :
    (flushBlockquote s).codeLanguage = s.codeLanguage := by
  unfold flushBlockquote; split <;> rfl

theorem flushBlockquote_of_nil (s : MdState) (h : s.blockquoteLines = []) :
    flushBlockquote s = s := by
  unfold flushBlockquote; simp [h]

@[simp] theorem flushCodeBlock_code (s : MdState) : (flushCodeBlock s).codeBlock = [] := by
  unfold flushCodeBlock; split <;> simp_all

@[simp] theorem flushCodeBlock_inCode (s : MdState) :
    (flushCodeBlock s).inCodeBlock = s.inCodeBlock := by
  unfold flushCodeBlock; split <;> rfl

@[simp] theorem flushCodeBlock_listItems (s : MdState) :
    (flushCodeBlock s).listItems = s.listItems := by
  unfold flushCodeBlock; split <;> rfl

@[simp] theorem flushCodeBlock_ordered (s : MdState) :
    (flushCodeBlock s).orderedListItems = s.orderedListItems := by
  unfold flushCodeBlock; split <;> rfl

@[simp] theorem flushCodeBlock_bq (s : MdState) :
    (flushCodeBlock s).blockquoteLines = s.blockquoteLines := by
  unfold flushCodeBlock; split <;> rfl

theorem flushCodeBlock_of_nil (s : MdState) (h : s.codeBlock = []) : flushCodeBlock s = s := by
  unfold flushCodeBlock; simp [h]

/-- While the fence flag is set, the three non-code buffers are empty: they
are flushed when the fence opens and no in-fence branch touches them. -/
def MdInv (s : MdState) : Prop :=
  s.inCodeBlock = true →
    s.listItems = [] ∧ s.orderedListItems = [] ∧ s.blockquoteLines = []

theorem mdContent_inCode (s : MdState) (t : List Char) :
    (mdContent s t).inCodeBlock = s.inCodeBlock := by
  unfold mdContent
  dsimp only
  repeat' split
  all_goals simp [pushNode]

theorem mdStep_inv (s : MdState) (l : List Char) (h : MdInv s) : MdInv (mdStep s l) := by
  unfold MdInv at h ⊢
  unfold mdStep
  dsimp only
  split
  · split
    · intro hc; simp at hc
    · intro _; simp
  · split
    case isTrue h2 =>
      intro hc
      simp only [MdState.inCodeBlock] at hc
      rcases h hc with ⟨ha, hb, hd⟩
      simp_all
    case isFalse h2 =>
      split
      · intro hc; simp at hc; exact absurd hc h2
      · intro hc
        rw [mdContent_inCode] at hc
        exact absurd hc h2

theorem mdFoldLines_inv (lines : List (List Char)) (s : MdState) (h : MdInv s) :
    MdInv (lines.foldl mdStep s) := by
  induction lines generalizing s with
  | nil => exact h
  | cons a t ih => exact ih _ (mdStep_inv s a h)

theorem mdFold_inv (cs : List Char) : MdInv (mdFold cs) := by
  unfold mdFold
  exact mdFoldLines_inv _ _ (by intro h; simp [mdInit] at h)

theorem jsInsert_not_mem (acc : List (List Char × JsonValue)) (kv : List Char × JsonValue)
    (h : ∀ p ∈ acc, p.1 ≠ kv.1) : jsInsert acc kv = acc ++ [kv] := by
  unfold jsInsert
  rw [if_neg]
  intro hx
  rw [List.any_eq_true] at hx
  obtain ⟨p, hp, he⟩ := hx
  exact h p hp (by simpa using he)

theorem foldl_jsInsert_append (raw : List (List Char × JsonValue)) :
    ∀ acc, (raw.map Prod.fst).Nodup →
      (∀ p ∈ acc, p.1 ∉ raw.map Prod.fst) →
      raw.foldl jsInsert acc = acc ++ raw := by
  induction raw with
  | nil => intro acc _ _; simp
  | cons kv t ih =>
    intro acc hnd hdisj
    rw [List.map_cons, List.nodup_cons] at hnd
    have hne : ∀ p ∈ acc, p.1 ≠ kv.1 := by
      intro p hp
      have h0 := hdisj p hp
      rw [List.map_cons, List.mem_cons, not_or] at h0
      exact h0.1
    have hdisj2 : ∀ p ∈ acc ++ [kv], p.1 ∉ t.map Prod.fst := by
      intro p hp
      rcases List.mem_append.mp hp with hpa | hpk
      · have h0 := hdisj p hpa
        rw [List.map_cons, List.mem_cons, not_or] at h0
        exact h0.2
      · have hk : p = kv := by simpa using hpk
        subst hk
        exact hnd.1
    rw [List.foldl_cons, jsInsert_not_mem acc kv hne, ih (acc ++ [kv]) hnd.2 hdisj2]
    simp

/-- When the keys are pairwise distinct, building the JS object keeps the
textual member list unchanged. -/
theorem jsInsertAll_of_nodup (raw : List (List Char × JsonValue))
    (hnd : (raw.map Prod.fst).Nodup) : jsInsertAll raw = raw := by
  unfold jsInsertAll
  simpa using foldl_jsInsert_append raw [] hnd (fun p hp => absurd hp (List.not_mem_nil p))

/-- When no key is an array index, `Object.entries` keeps insertion order. -/
theorem jsEntries_id (l : List (List Char × JsonValue))
    (h : ∀ p ∈ l, isArrayIndex p.1 = false) : jsEntries l = l := by
  unfold jsEntries
  have h1 : l.filter (fun p => isArrayIndex p.1) = [] := by
    rw [List.filter_eq_nil_iff]
    intro a ha
    simp [h a ha]
  have h2 : l.filter (fun p => !isArrayIndex p.1) = l := by
    rw [List.filter_eq_self]
    intro a ha
    simp [h a ha]
  rw [h1, h2]
  rfl

theorem scanRemove_sublist (m : List Char → Option Nat) (fuel : Nat) (cs : List Char) :
    (scanRemove m fuel cs).Sublist cs := by
  induction fuel generalizing cs with
  | zero => simp [scanRemove]
  | succ f ih =>
    cases cs with
    | nil => simp [scanRemove]
    | cons c t =>
      cases hm : m (c :: t) with
      | some n =>
        simp only [scanRemove, hm]
        exact (ih _).trans (List.drop_sublist _ _)
      | none =>
        simp only [scanRemove, hm]
        exact List.Sublist.cons₂ c (ih t)

theorem plainLine_eq_spec (l : List Char) : plainLine l = plainLineSpec l := by
  unfold plainLine plainLineSpec
  cases ht : jsTrim l with
  | nil => simp [ht, capsTest]
  | cons c rest =>
    simp only [ht]
    by_cases h3 : (c :: rest).length > 3
    · by_cases hu : isAsciiUpper c = true
      · by_cases ha : rest.all (fun x => isAsciiUpper x || isJsWs x || x = '&') = true
        · have hr : rest ≠ [] := by
            intro he
            subst he
            simp at h3
          simp [capsTest, hu, ha, hr, h3]
        · simp [capsTest, hu, ha, h3]
      · simp [capsTest, hu, h3]
    · have h4 : ¬ 3 < rest.length + 1 := by simpa using h3
      simp [capsTest, h4]

/-! ## Claim theorems -/

/-- C1 (counterexample): a blank line does not leave every buffer untouched.
After `> q` the blockquote buffer holds one line; processing the blank line
takes the `else { flushBlockquote(); }` branch of App.tsx line 464, emptying
the buffer and emitting a `Blockquote` node.  Inside an open fence a blank
line is likewise appended to the code buffer rather than ignored. -/
theorem c1_blank_line_counterexample :
    (mdStep (mdStep mdInit "> q".data) " ".data).blockquoteLines = [] ∧
    (mdStep mdInit "> q".data).blockquoteLines = ["q".data] ∧
    (mdStep (mdStep mdInit "> q".data) " ".data).elements =
      [RenderNode.blockquote [[Span.text "q".data]]] ∧
    (mdStep mdInit "> q".data).elements = [] ∧
    mdRender "> a\n\n> b".data =
      [RenderNode.blockquote [[Span.text "a".data]],
       RenderNode.blockquote [[Span.text "b".data]]] ∧
    (mdStep (mdStep mdInit "```".data) "".data).codeBlock = [[]] := by
  decide

/-- C1 (amended): outside a code fence, a whitespace-only line emits no node
of its own and leaves the unordered-list, ordered-list and code buffers
untouched, but — like any non-blockquote content line — it flushes the
blockquote buffer; when that buffer is empty the state is completely
unchanged.  (Inside a fence a blank line is instead appended verbatim to the
code buffer.) -/
theorem c1_blank_line_amended (s : MdState) (l : List Char)
    (h1 : s.inCodeBlock = false) (h2 : jsTrim l = []) :
    mdStep s l = flushBlockquote s ∧
    (mdStep s l).listItems = s.listItems ∧
    (mdStep s l).orderedListItems = s.orderedListItems ∧
    (mdStep s l).codeBlock = s.codeBlock ∧
    (mdStep s l).blockquoteLines = [] ∧
    (s.blockquoteLines = [] → mdStep s l = s) := by
  have hmain : mdStep s l = flushBlockquote s := by
    unfold mdStep
    dsimp only
    rw [h2]
    rw [if_neg (by decide : ¬ ("```".data.isPrefixOf ([] : List Char)) = true)]
    rw [if_neg (show ¬ (s.inCodeBlock = true) from by simp [h1])]
    rw [if_neg (by decide : ¬ ("> ".data.isPrefixOf ([] : List Char)) = true)]
    unfold mdContent
    dsimp only
    rw [if_neg (by decide : ¬ ("# ".data.isPrefixOf ([] : List Char)) = true)]
    rw [if_neg (by decide : ¬ ("## ".data.isPrefixOf ([] : List Char)) = true)]
    rw [if_neg (by decide : ¬ ("### ".data.isPrefixOf ([] : List Char)) = true)]
    rw [if_neg (by decide : ¬ ("#### ".data.isPrefixOf ([] : List Char)) = true)]
    rw [if_neg (by decide : ¬ ("##### ".data.isPrefixOf ([] : List Char)) = true)]
    rw [if_neg (by decide :
      ¬ ((decide (([] : List Char) = "---".data) || decide (([] : List Char) = "***".data) ||
          decide (([] : List Char) = "___".data)) = true))]
    rw [if_neg (by decide :
      ¬ (("- ".data.isPrefixOf ([] : List Char) ||
          "* ".data.isPrefixOf ([] : List Char)) = true))]
    rw [if_neg (by decide : ¬ (ordTest ([] : List Char)) = true)]
    rw [if_neg (by decide : ¬ ("Tags:".data.isPrefixOf ([] : List Char)) = true)]
    rw [if_neg (by decide : ¬ (([] : List Char) ≠ []))]
  refine ⟨hmain, ?_, ?_, ?_, ?_, ?_⟩ <;> rw [hmain] <;> try simp
  intro hb
  exact flushBlockquote_of_nil s hb

/-- C1 (witness): the amended statement applied after an unordered item, on a
space-only line. -/
theorem c1_blank_line_witness :
    mdStep (mdStep mdInit "- x".data) " ".data =
      flushBlockquote (mdStep mdInit "- x".data) :=
  (c1_blank_line_amended _ _ (by decide) (by decide)).1

/-- C2 (counterexample): the claim fails twice.  (a) The syntactically valid
JSON document `"``````"` (a string of six backticks) contains the fenced-block
pattern, so `renderJson` extracts the empty text between the first two fences,
fails to parse it, and takes the verbatim fallback.  (b) For
`{"2":1,"1":2}` — valid JSON, no fences — `Object.entries` lists the
array-index keys in ascending numeric order, so the rendered key order is
`1, 2` while the source key order is `2, 1`. -/
theorem c2_json_roundtrip_counterexample :
    (jsonParse "\"``````\"".data).isSome = true ∧
    (renderJson "\"``````\"".data).isFallback = true ∧
    fenceExtract "\x7b\"2\":1,\"1\":2\x7d".data = none ∧
    (jsonParse "\x7b\"2\":1,\"1\":2\x7d".data).isSome = true ∧
    (renderJson "\x7b\"2\":1,\"1\":2\x7d".data).isFallback = false ∧
    (renderJson "\x7b\"2\":1,\"1\":2\x7d".data).topKeys = ["1".data, "2".data] := by
  decide

/-- C2 (amended): for every input in which the fenced-block pattern does not
match and whose trimmed text parses as strict JSON, `renderJson` takes the
tree branch (never the verbatim fallback); the rendered object's key order is
the parsed object's `Object.entries` order, and that order equals the source
JSON's textual key order whenever the keys are pairwise distinct and none is
an array-index string (the third conjunct, about the entry-list
transformation the parser applies to the textual members). -/
theorem c2_json_roundtrip_amended (cs : List Char) (v : JsonValue)
    (raw : List (List Char × JsonValue))
    (h1 : fenceExtract cs = none) (h2 : jsonParse (jsTrim cs) = some v)
    (h3 : (raw.map Prod.fst).Nodup)
    (h4 : ∀ k ∈ raw.map Prod.fst, isArrayIndex k = false) :
    renderJson cs = JsonRendered.tree (renderJsonValueF ((jsTrim cs).length + 1) v 0) ∧
    (∀ pairs, v = JsonValue.obj pairs →
      (renderJson cs).topKeys = pairs.map Prod.fst) ∧
    jsEntries (jsInsertAll raw) = raw := by
  have hc : candidateJson cs = jsTrim cs := by
    unfold candidateJson
    rw [h1]
  have hmain : renderJson cs =
      JsonRendered.tree (renderJsonValueF ((jsTrim cs).length + 1) v 0) := by
    unfold renderJson
    dsimp only
    rw [hc, h2]
  refine ⟨hmain, ?_, ?_⟩
  · intro pairs hv
    subst hv
    rw [hmain]
    cases pairs with
    | nil => simp [renderJsonValueF, JsonRendered.topKeys]
    | cons p ps => simp [renderJsonValueF, JsonRendered.topKeys]
  · rw [jsInsertAll_of_nodup raw h3]
    exact jsEntries_id raw (fun p hp => h4 p.1 (List.mem_map_of_mem Prod.fst hp))

/-- C2 (witness): the amended statement applied to `{"b":1,"a":2}`, whose
keys are distinct and not array indices; the rendered key order equals the
source order `b, a`. -/
theorem c2_json_roundtrip_witness :
    (renderJson "\x7b\"b\":1,\"a\":2\x7d".data).topKeys = ["b".data, "a".data] := by
  have h := c2_json_roundtrip_amended "\x7b\"b\":1,\"a\":2\x7d".data
    (JsonValue.obj [("b".data, JsonValue.num "1".data), ("a".data, JsonValue.num "2".data)])
    [("b".data, JsonValue.num "1".data), ("a".data, JsonValue.num "2".data)]
    rfl rfl (by decide) (by decide)
  rw [h.2.1 _ rfl]
  decide

/-- C3: whenever the candidate JSON (the fenced capture if the fence pattern
matched, else the whole trimmed input) fails the strict parse, `renderJson`
returns exactly the single verbatim preformatted node carrying the original
input unchanged.  `renderJson` is a total function of the input — the
embedding of the `try`/`catch` that keeps every failure inside the
component. -/
theorem c3_json_fallback_verbatim (cs : List Char)
    (h : jsonParse (candidateJson cs) = none) :
    renderJson cs = JsonRendered.fallback cs := by
  unfold renderJson
  dsimp only
  rw [h]

/-- C3 (witness): the spec's own example input. -/
theorem c3_json_fallback_witness :
    renderJson "not json".data = JsonRendered.fallback "not json".data :=
  c3_json_fallback_verbatim "not json".data rfl

/-- C4 (counterexample): input consisting of a lone opening fence ends while
the fence flag is still set, yet the end-of-input flush emits no `CodeBlock`
at all (the buffer is empty and the flush is guarded on it being nonempty),
contradicting "emits exactly one CodeBlock node". -/
theorem c4_fence_flush_counterexample :
    (mdFold "```".data).inCodeBlock = true ∧ mdRender "```".data = [] := by
  decide

/-- C4 (amended): if the input ends while the fence flag is set and at least
one line has been accumulated since the fence opened, the end-of-input flush
appends exactly one `CodeBlock` carrying the pending language tag and all
accumulated lines — nothing is discarded and no other node is added (the
other three buffers are provably empty inside a fence). -/
theorem c4_fence_flush_amended (cs : List Char)
    (h1 : (mdFold cs).inCodeBlock = true) (h2 : (mdFold cs).codeBlock ≠ []) :
    mdRender cs = (mdFold cs).elements ++
      [RenderNode.codeBlock (mdFold cs).codeLanguage (mdFold cs).codeBlock] := by
  obtain ⟨hl, ho, hb⟩ := mdFold_inv cs h1
  unfold mdRender mdFinalize
  rw [flushList_of_nil _ hl, flushOrderedList_of_nil _ ho, flushBlockquote_of_nil _ hb]
  unfold flushCodeBlock
  rw [if_neg h2]

/-- C4 (witness): an unterminated `js` fence with one accumulated line. -/
theorem c4_fence_flush_witness :
    mdRender "```js\ncode".data = [RenderNode.codeBlock "js".data ["code".data]] := by
  have h := c4_fence_flush_amended "```js\ncode".data (by decide) (by decide)
  rw [h]
  decide

/-- C5: the inline parser tries bold before italic on the remaining text
regardless of match position.  On `*a **b** c*` the italic pattern matches
already at position 0 (body `a `), and the bold pattern only at position 3,
yet the produced spans are literal text `*a `, Bold `b`, literal text ` c*` —
the exact fixed-priority sequence, with the text before the bold match kept
as a literal Text span. -/
theorem c5_inline_priority :
    parseSpans "*a **b** c*".data =
      [Span.text "*a ".data, Span.bold "b".data, Span.text " c*".data] ∧
    findItalic "*a **b** c*".data = some ([], "a ".data, "*b** c*".data) ∧
    findBold "*a **b** c*".data = some ("*a ".data, "b".data, " c*".data) := by
  decide

/-- C6: an ordered-item line flushes the unordered buffer before being
buffered itself (and an unordered item symmetrically flushes the ordered
buffer), for every state outside a code fence; and the spec's scenario — two
unordered items, one ordered item, end of input — yields first
`List{ordered:false}` with 2 items, then `List{ordered:true}` with 1 item. -/
theorem c6_list_kind_switch (s : MdState) (h1 : s.inCodeBlock = false) :
    (mdStep s "1. c".data).listItems = [] ∧
    (mdStep s "1. c".data).orderedListItems = s.orderedListItems ++ ["c".data] ∧
    (mdStep s "- a".data).orderedListItems = [] ∧
    (mdStep s "- a".data).listItems = s.listItems ++ ["a".data] ∧
    mdRender "- a\n- b\n1. c".data =
      [RenderNode.list false [[Span.text "a".data], [Span.text "b".data]],
       RenderNode.list true [[Span.text "c".data]]] := by
  have hord : mdStep s "1. c".data =
      { flushList (flushBlockquote s) with
        orderedListItems :=
          (flushList (flushBlockquote s)).orderedListItems ++ [ordStrip "1. c".data] } := by
    unfold mdStep
    dsimp only
    rw [if_neg (by decide :
      ¬ ("```".data.isPrefixOf (jsTrim "1. c".data)) = true)]
    rw [if_neg (show ¬ (s.inCodeBlock = true) from by simp [h1])]
    rw [if_neg (by decide : ¬ ("> ".data.isPrefixOf (jsTrim "1. c".data)) = true)]
    unfold mdContent
    dsimp only
    rw [if_neg (by decide : ¬ ("# ".data.isPrefixOf (jsTrim "1. c".data)) = true)]
    rw [if_neg (by decide : ¬ ("## ".data.isPrefixOf (jsTrim "1. c".data)) = true)]
    rw [if_neg (by decide : ¬ ("### ".data.isPrefixOf (jsTrim "1. c".data)) = true)]
    rw [if_neg (by decide : ¬ ("#### ".data.isPrefixOf (jsTrim "1. c".data)) = true)]
    rw [if_neg (by decide : ¬ ("##### ".data.isPrefixOf (jsTrim "1. c".data)) = true)]
    rw [if_neg (by decide :
      ¬ ((decide (jsTrim "1. c".data = "---".data) ||
          decide (jsTrim "1. c".data = "***".data) ||
          decide (jsTrim "1. c".data = "___".data)) = true))]
    rw [if_neg (by decide :
      ¬ (("- ".data.isPrefixOf (jsTrim "1. c".data) ||
          "* ".data.isPrefixOf (jsTrim "1. c".data)) = true))]
    rw [if_pos (by decide : (ordTest (jsTrim "1. c".data)) = true)]
    rfl
  have hul : mdStep s "- a".data =
      { flushOrderedList (flushBlockquote s) with
        listItems :=
          (flushOrderedList (flushBlockquote s)).listItems ++ [(jsTrim "- a".data).drop 2] } := by
    unfold mdStep
    dsimp only
    rw [if_neg (by decide :
      ¬ ("```".data.isPrefixOf (jsTrim "- a".data)) = true)]
    rw [if_neg (show ¬ (s.inCodeBlock = true) from by simp [h1])]
    rw [if_neg (by decide : ¬ ("> ".data.isPrefixOf (jsTrim "- a".data)) = true)]
    unfold mdContent
    dsimp only
    rw [if_neg (by decide : ¬ ("# ".data.isPrefixOf (jsTrim "- a".data)) = true)]
    rw [if_neg (by decide : ¬ ("## ".data.isPrefixOf (jsTrim "- a".data)) = true)]
    rw [if_neg (by decide : ¬ ("### ".data.isPrefixOf (jsTrim "- a".data)) = true)]
    rw [if_neg (by decide : ¬ ("#### ".data.isPrefixOf (jsTrim "- a".data)) = true)]
    rw [if_neg (by decide : ¬ ("##### ".data.isPrefixOf (jsTrim "- a".data)) = true)]
    rw [if_neg (by decide :
      ¬ ((decide (jsTrim "- a".data = "---".data) ||
          decide (jsTrim "- a".data = "***".data) ||
          decide (jsTrim "- a".data = "___".data)) = true))]
    rw [if_pos (by decide :
      ("- ".data.isPrefixOf (jsTrim "- a".data) ||
       "* ".data.isPrefixOf (jsTrim "- a".data)) = true)]
  refine ⟨?_, ?_, ?_, ?_, by decide⟩
  · rw [hord]
    simp
  · rw [hord, show ordStrip "1. c".data = "c".data from by decide]
    simp
  · rw [hul]
    simp
  · rw [hul, show (jsTrim "- a".data).drop 2 = "a".data from by decide]
    simp

/-- C6 (witness): the flush behaviour at the initial state. -/
theorem c6_list_kind_switch_witness :
    (mdStep mdInit "1. c".data).orderedListItems =
      mdInit.orderedListItems ++ ["c".data] :=
  (c6_list_kind_switch mdInit (by decide)).2.1

/-- C7 (counterexample): the sanitized output can still contain a complete
`<script>…</script>` span and a complete `on<word>="…"` attribute.  Deleting
the inner span of `<scr<script>a</script>ipt>b</script>` splices the
surrounding text into `<script>b</script>`, and deleting `ONCLICK="a"` from
`oONCLICK="a"nload="evil"` splices `onload="evil"`; the later passes never
rescan, so both survive into the output. -/
theorem c7_sanitizer_counterexample :
    sanitize "<scr<script>a</script>ipt>b</script>".data =
      "<script>b</script>".data ∧
    hasMatch matchScript (sanitize "<scr<script>a</script>ipt>b</script>".data) = true ∧
    sanitize "oONCLICK=\"a\"nload=\"evil\"".data = "onload=\"evil\"".data ∧
    hasMatch (matchHandler (Char.ofNat 34))
      (sanitize "oONCLICK=\"a\"nload=\"evil\"".data) = true := by
  decide

/-- C7 (amended): the sanitizer performs three sequential single left-to-right
passes — script spans, then double-quoted handlers, then single-quoted
handlers — deleting every match it finds in the text as it stands at that
pass and passing all other text through unchanged, so the output is always a
subsequence of the input (first conjunct); matches present in the original
input are indeed removed (second and third conjuncts), but text spliced
together by a deletion is not rescanned, so the output is not guaranteed free
of script spans or handler attributes. -/
theorem c7_sanitizer_amended :
    (∀ html, (sanitize html).Sublist html) ∧
    sanitize "<p onclick=\"x\"><script>bad()</script></p>".data = "<p ></p>".data ∧
    sanitize "<div onclick='a' ONLOAD=\"b\">hi</div>".data = "<div  >hi</div>".data := by
  refine ⟨?_, by decide, by decide⟩
  intro html
  unfold sanitize
  dsimp only
  exact ((scanRemove_sublist _ _ _).trans (scanRemove_sublist _ _ _)).trans
    (scanRemove_sublist _ _ _)

/-- C8: every format discriminator other than `html`, `json` and `plain`
(including `markdown` itself and any unknown value) reaches the
`default`/`markdown` arm of the `switch`, so the dispatcher's result is
exactly the Markdown renderer's result on the same text. -/
theorem c8_dispatcher_default (content : List Char) (format : String)
    (h1 : format ≠ "html") (h2 : format ≠ "json") (h3 : format ≠ "plain") :
    renderResult content format = RenderedDoc.mdDoc (mdRender content) := by
  unfold renderResult
  rw [if_neg h1, if_neg h2, if_neg h3]

/-- C8 (witness): an unknown format value falls back to Markdown. -/
theorem c8_dispatcher_default_witness :
    renderResult "hi".data "xml" = RenderedDoc.mdDoc (mdRender "hi".data) :=
  c8_dispatcher_default "hi".data "xml" (by decide) (by decide) (by decide)

/-- C9: the plain-text renderer emits exactly one node per input line — it is
the per-line classifier mapped over the newline-split input (first conjunct,
so classification is independent of every other line) — and the classifier
agrees everywhere with the claim's rule set, stated verbatim in
`plainLineSpec`: all-caps heading test (uppercase start, only
uppercase/whitespace/`&`, trimmed length > 3), then `-`-prefix list style,
then blank spacer, else raw text (second conjunct); the spec's scenario is
the third conjunct. -/
theorem c9_plain_per_line (cs l : List Char) :
    plainRender cs = (splitLines cs).map plainLine ∧
    plainLine l = plainLineSpec l ∧
    plainRender "HELLO WORLD\n\n- item".data =
      [PlainNode.heading "HELLO WORLD".data, PlainNode.spacer,
       PlainNode.listLike "- item".data] := by
  exact ⟨rfl, plainLine_eq_spec l, by decide⟩

/-- C10: closing a fence (here: any line whose trim starts with three
backticks, seen while the fence flag is set) with an empty code buffer emits
no node at all — the state only clears the fence flag, and the buffered
language tag never reaches the output; likewise end of input right after a
fence-open produces no `CodeBlock`, so an empty fenced block disappears. -/
theorem c10_empty_fence_no_node (s : MdState) (l : List Char)
    (h1 : s.inCodeBlock = true) (h2 : s.codeBlock = [])
    (h3 : ("```".data.isPrefixOf (jsTrim l)) = true) :
    mdStep s l = { s with inCodeBlock := false } ∧
    mdRender "```js\n```".data = [] ∧
    mdRender "```js\n```\nafter".data =
      [RenderNode.paragraph [Span.text "after".data]] ∧
    mdRender "```js".data = [] := by
  refine ⟨?_, by decide, by decide, by decide⟩
  unfold mdStep
  dsimp only
  rw [if_pos h3, if_pos h1]
  exact flushCodeBlock_of_nil _ (by simpa using h2)

/-- C10 (witness): closing the fence right after `` ```js `` opened it. -/
theorem c10_empty_fence_no_node_witness :
    mdStep (mdStep mdInit "```js".data) "```".data =
      { mdStep mdInit "```js".data with inCodeBlock := false } :=
  (c10_empty_fence_no_node _ _ (by decide) (by decide) (by decide)).1
